import Mathlib

/-!
Shallow embedding of the UPGMA clustering core of
`src/distancematrixtree/upgma.h` (template class `StartTree::UPGMA_Matrix`
and its subclass `StartTree::VectorizedUPGMA_Matrix`).

The floating-point type `T = NJFloat` is modelled as `ℚ`; machine indices
(`intptr_t`, `size_t`) are modelled as `ℤ` resp. `ℕ`.  Collaborator classes
that are part of this repository but not under `src/` (`SquareMatrix` of
distancematrix.h, `ClusterTree` of clustertree.h, `HashRow` of hashrow.h)
are modelled from the spec; each such definition carries a doc comment
starting with `Modelled from the spec:`.
-/

namespace StartTree

/-- The sentinel `const NJFloat infiniteDistance = (NJFloat)(1e+36);` (upgma.h line 99). -/
def infiniteDistance : ℚ := 10 ^ 36

/-- The `Position` struct (upgma.h lines 110-138): a candidate join `(row, column)`
with its dissimilarity `value` and the `imbalance` tie-break key.
`row`/`column` are `intptr_t`, `imbalance` a `size_t`. -/
structure Position where
  row : ℤ
  column : ℤ
  value : ℚ
  imbalance : ℕ
  deriving DecidableEq, Repr

instance : Inhabited Position :=
  ⟨⟨0, 0, 0, 0⟩⟩

/-- The comparison `Position::operator<` (upgma.h lines 130-133): value ascending, then
imbalance ascending. -/
def Position.lt (p rhs : Position) : Prop :=
  p.value < rhs.value ∨ (p.value = rhs.value ∧ p.imbalance < rhs.imbalance)

instance (p q : Position) : Decidable (p.lt q) := by
  unfold Position.lt
  infer_instance

/-- Modelled from the spec: a `ClusterTree` record (clustertree.h is not in
`src/`).  Per §2/§3 of the spec a cluster record holds the name (for a
leaf), the child links (cluster id and branch length, empty for a leaf)
and `countOfExteriorNodes`, the number of original leaves subtended. -/
structure ClusterRecord where
  name : String
  links : List (ℕ × ℚ)
  countOfExteriorNodes : ℕ
  deriving DecidableEq, Repr

instance : Inhabited ClusterRecord :=
  ⟨⟨"", [], 0⟩⟩

/-- Modelled from the spec: `ClusterTree::addCluster(name)` appends a leaf
record subtending one exterior node (§2: "created once per original input
item"). -/
def addLeafCluster (cs : List ClusterRecord) (nm : String) : List ClusterRecord :=
  cs ++ [⟨nm, [], 1⟩]

/-- Modelled from the spec: `ClusterTree::addCluster(idA, lenA, idB, lenB)`
appends a join record whose exterior-node count is the sum of the children's
counts (§2, §3 "Cluster record"). -/
def addJoinCluster (cs : List ClusterRecord) (a : ℕ) (la : ℚ) (b : ℕ) (lb : ℚ) :
    List ClusterRecord :=
  cs ++ [⟨"", [(a, la), (b, lb)],
          (cs.getD a default).countOfExteriorNodes
            + (cs.getD b default).countOfExteriorNodes⟩]

/-- Modelled from the spec: the degree-3 overload
`ClusterTree::addCluster(idA, lenA, idB, lenB, idC, lenC)` used by the
finishing step for unrooted trees (§4.5, §6). -/
def addJoinCluster3 (cs : List ClusterRecord) (a : ℕ) (la : ℚ) (b : ℕ) (lb : ℚ)
    (c : ℕ) (lc : ℚ) : List ClusterRecord :=
  cs ++ [⟨"", [(a, la), (b, lb), (c, lc)],
          (cs.getD a default).countOfExteriorNodes
            + (cs.getD b default).countOfExteriorNodes
            + (cs.getD c default).countOfExteriorNodes⟩]

/-- A record is internal (a join) precisely when it has child links;
leaf records have none. -/
def internalRecordCount (cs : List ClusterRecord) : ℕ :=
  (cs.filter (fun c => !(c.links.isEmpty))).length

/-- The state of a `UPGMA_Matrix<T>`: the live matrix (`rows`, with
`row_count = rows.length`; rows physically shrink on removal, per note C of
upgma.h), the row-to-cluster map, the accumulated cluster records and the
rootedness flag.  Output-formatting flags (`silent`, `isOutputToBeZipped`,
`isOutputToBeAppended`, `subtreeOnly`) never influence the clustering and
are omitted. -/
structure UPGMA_Matrix where
  rows : List (List ℚ)
  rowToCluster : List ℕ
  clusters : List ClusterRecord
  isRooted : Bool
  deriving DecidableEq, Repr

/-- The tie-break key `UPGMA_Matrix::getImbalance` (upgma.h lines 456-462). -/
def UPGMA_Matrix.getImbalance (m : UPGMA_Matrix) (rowA rowB : ℕ) : ℕ :=
  let clusterA := m.rowToCluster.getD rowA 0
  let clusterB := m.rowToCluster.getD rowB 0
  let sizeA := (m.clusters.getD clusterA default).countOfExteriorNodes
  let sizeB := (m.clusters.getD clusterB default).countOfExteriorNodes
  if sizeA < sizeB then sizeB - sizeA else sizeA - sizeB

/-- One iteration of the inner loop of the scalar
`UPGMA_Matrix::getRowMinima` (upgma.h lines 286-292):
`better = (v < bestVrc); if (better) { bestColumn = col; bestVrc = v; }`. -/
def scanStep (rowData : List ℚ) (bc : ℕ × ℚ) (col : ℕ) : ℕ × ℚ :=
  if rowData.getD col 0 < bc.2 then (col, rowData.getD col 0) else bc

/-- The inner loop of the scalar `UPGMA_Matrix::getRowMinima` (upgma.h lines
283-293): scan columns `0 ≤ col < row` of `rowData`, keeping the running
minimum `bestVrc` (seeded with `infiniteDistance`) and its column
`bestColumn` (seeded with `0`); a column only replaces the incumbent when
its value is strictly smaller. -/
def scanRowForMinimum (rowData : List ℚ) (row : ℕ) : ℕ × ℚ :=
  (List.range row).foldl (scanStep rowData) (0, infiniteDistance)

/-- The `rowMinima` entry written for row `row ≥ 1` by the scalar scanner
(upgma.h line 294):
`Position<T>(row, bestColumn, bestVrc, getImbalance(row, bestColumn))`. -/
def rowMinEntry (m : UPGMA_Matrix) (row : ℕ) : Position :=
  ⟨(row : ℤ), ((scanRowForMinimum (m.rows.getD row []) row).1 : ℤ),
   (scanRowForMinimum (m.rows.getD row []) row).2,
   m.getImbalance row (scanRowForMinimum (m.rows.getD row []) row).1⟩

/-- Scalar `UPGMA_Matrix::getRowMinima` (upgma.h lines 275-296): entry 0 is
the sentinel (only its `value` is assigned; `row`/`column` keep the
default-constructed `0`), and each row `1 ≤ r < row_count` gets the scan
result together with its imbalance.  (The `row_count = 0` guard covers the
case in which the C++ would index an empty vector; `getRowMinima` is only
ever invoked with `row_count > 2`.) -/
def UPGMA_Matrix.getRowMinima (m : UPGMA_Matrix) : List Position :=
  if m.rows.length = 0 then [] else
  ⟨0, 0, infiniteDistance, 0⟩ ::
    (List.range' 1 (m.rows.length - 1)).map (rowMinEntry m)

/-- The loop body of `UPGMA_Matrix::getMinimumEntry` (upgma.h lines
268-273): `if (here.value < best.value && here.row != here.column)
{ best = here; }`. -/
def minEntryStep (b here : Position) : Position :=
  if here.value < b.value ∧ here.row ≠ here.column then here else b

/-- The global reduction `UPGMA_Matrix::getMinimumEntry` (upgma.h lines 265-274): reset the
caller-supplied `best.value` to `infiniteDistance` (its `row`/`column`
carry over), then fold over `rowMinima`, replacing `best` whenever an entry
has a strictly smaller `value` and is not the `row == column` sentinel. -/
def getMinimumEntry (best : Position) (mins : List Position) : Position :=
  mins.foldl minEntryStep { best with value := infiniteDistance }

/-- Modelled from the spec: `SquareMatrix::removeRowAndColumn(b)`
(distancematrix.h is not in `src/`).  Per §4.4 of the spec and note C /
lines 50-53 of upgma.h: in every row, the entry of the last column is
written over the entry of column `b` and the last column is dropped; then
the last row is written over row `b` and dropped, and `row_count`
decrements. -/
def removeRowAndColumn (rows : List (List ℚ)) (b : ℕ) : List (List ℚ) :=
  let n := rows.length
  let rows1 := rows.map (fun r => (r.set b (r.getD (n - 1) 0)).take (n - 1))
  (rows1.set b (rows1.getD (n - 1) [])).take (n - 1)

/-- The row-`a` update of the `cluster` loop (upgma.h lines 337-345):
`rowA[i] = Dci` for every `i` other than `a` and `b`.  The counter `j` is
the absolute column index of the head of the remaining list; the loop runs
over `i < row_count`, which equals the row length for a well-formed
matrix. -/
def updateRowDistances (f : ℕ → ℚ) (a b : ℕ) : ℕ → List ℚ → List ℚ
  | _, [] => []
  | j, x :: xs => (if j ≠ a ∧ j ≠ b then f j else x) :: updateRowDistances f a b (j + 1) xs

/-- The whole-matrix effect of the `cluster` loop (upgma.h lines 337-345):
row `a` becomes `updateRowDistances`, row `b` is untouched, and every other
row `i` gets `rows[i][a] = Dci`.  Iterations touch pairwise disjoint
entries and each `Dci` is computed from the original rows `a` and `b`, so
the loop is modelled as this structural recursion over the rows. -/
def writeNewDistances (f : ℕ → ℚ) (a b : ℕ) : ℕ → List (List ℚ) → List (List ℚ)
  | _, [] => []
  | i, r :: rs =>
    (if i = a then updateRowDistances f a b 0 r
     else if i = b then r
     else r.set a (f i)) :: writeNewDistances f a b (i + 1) rs

/-- The weighted-average distance `Dci` computed by `UPGMA_Matrix::cluster`
(upgma.h lines 330-341): `aCount`/`bCount` are the exterior-node counts of
the two joined clusters, `tCount` their sum,
`lambda = (T)aCount / (T)tCount`, `mu = (T)1.0 - lambda`, and
`Dci = lambda * Dai + mu * Dbi`. -/
def newDistanceFun (m : UPGMA_Matrix) (a b : ℕ) (i : ℕ) : ℚ :=
  let aCount := (m.clusters.getD (m.rowToCluster.getD a 0) default).countOfExteriorNodes
  let bCount := (m.clusters.getD (m.rowToCluster.getD b 0) default).countOfExteriorNodes
  let tCount := aCount + bCount
  let lambda : ℚ := (aCount : ℚ) / (tCount : ℚ)
  let mu : ℚ := 1 - lambda
  lambda * ((m.rows.getD a []).getD i 0) + mu * ((m.rows.getD b []).getD i 0)

/-- The matrix after the distance-averaging loop of
`UPGMA_Matrix::cluster` (upgma.h lines 330-345), before
`removeRowAndColumn(b)`: `Dci` written into `rows[a][i]` and `rows[i][a]`
for every `i ≠ a, b`. -/
def UPGMA_Matrix.clusterJoinedRows (m : UPGMA_Matrix) (a b : ℕ) : List (List ℚ) :=
  writeNewDistances (newDistanceFun m a b) a b 0 m.rows

/-- The join operation `UPGMA_Matrix::cluster(a, b)` (upgma.h lines 327-351), `a < b`:
`aLength = bLength = rows[b][a] * 0.5`; the averaging loop
(`clusterJoinedRows`); `clusters.addCluster(rowToCluster[a], aLength,
rowToCluster[b], bLength)`; `rowToCluster[a] = clusters.size()-1`;
`rowToCluster[b] = rowToCluster[row_count-1]`; `removeRowAndColumn(b)`. -/
def UPGMA_Matrix.cluster (m : UPGMA_Matrix) (a b : ℕ) : UPGMA_Matrix :=
  let aLength := (m.rows.getD b []).getD a 0 * (1 / 2)
  let bLength := aLength
  let clusters1 := addJoinCluster m.clusters
    (m.rowToCluster.getD a 0) aLength (m.rowToCluster.getD b 0) bLength
  let rtc1 := m.rowToCluster.set a (clusters1.length - 1)
  let rtc2 := rtc1.set b (rtc1.getD (m.rows.length - 1) 0)
  { m with
      rows := removeRowAndColumn (m.clusterJoinedRows a b) b
      rowToCluster := rtc2
      clusters := clusters1 }

/-- Bounds-checked store into a list: `none` when the index is out of
bounds.  This is the total embedding of `std::vector<T>::operator[]` used
as the target of an assignment. -/
def setInBounds (xs : List ℚ) (i : ℕ) (v : ℚ) : Option (List ℚ) :=
  if i < xs.length then some (xs.set i v) else none

/-- The finishing step `UPGMA_Matrix::finishClustering` (upgma.h lines 297-326).  The `ASSERT`
is modelled as the `none` outcome when `row_count` is neither 2 nor 3.
The C++ declares `std::vector<T> weights;` — a vector of size 0 — and then
assigns `weights[i]` for `i < row_count`; every `weights` access is
embedded with the bounds-checked `setInBounds` / `List.get?`.  On success
the final cluster record is appended (degree 3 when three rows remain,
degree 2 when two remain) and `row_count` becomes 0. -/
def UPGMA_Matrix.finishClustering (m : UPGMA_Matrix) : Option UPGMA_Matrix := do
  let rc := m.rows.length
  if rc = 2 ∨ rc = 3 then
    -- std::vector<T> weights;  (never resized)
    -- first loop: weights[i] = countOfExteriorNodes; denominator += weights[i]
    let wd ← (List.range rc).foldlM
      (fun (wd : List ℚ × ℚ) i => do
        let w : ℚ :=
          ((m.clusters.getD (m.rowToCluster.getD i 0) default).countOfExteriorNodes : ℚ)
        let ws ← setInBounds wd.1 i w
        pure (ws, wd.2 + w))
      (([] : List ℚ), (0 : ℚ))
    -- second loop: weights[i] /= (2.0 * denominator)
    let weights ← (List.range rc).foldlM
      (fun (ws : List ℚ) i => do
        let w ← ws.get? i
        setInBounds ws i (w / (2 * wd.2)))
      wd.1
    if rc = 3 then
      pure { m with
        rows := [],
        clusters := addJoinCluster3 m.clusters
          (m.rowToCluster.getD 0 0)
          (weights.getD 1 0 * (m.rows.getD 0 []).getD 1 0
            + weights.getD 2 0 * (m.rows.getD 0 []).getD 2 0)
          (m.rowToCluster.getD 1 0)
          (weights.getD 0 0 * (m.rows.getD 0 []).getD 1 0
            + weights.getD 2 0 * (m.rows.getD 1 []).getD 2 0)
          (m.rowToCluster.getD 2 0)
          (weights.getD 0 0 * (m.rows.getD 0 []).getD 2 0
            + weights.getD 1 0 * (m.rows.getD 1 []).getD 2 0) }
    else
      pure { m with
        rows := [],
        clusters := addJoinCluster m.clusters
          (m.rowToCluster.getD 0 0)
          (weights.getD 1 0 * (m.rows.getD 0 []).getD 1 0)
          (m.rowToCluster.getD 1 0)
          (weights.getD 0 0 * (m.rows.getD 0 []).getD 1 0) }
  else
    none

/-- The threshold `int degree_of_root = isRooted ? 2 : 3;` (upgma.h line 227). -/
def UPGMA_Matrix.degreeOfRoot (m : UPGMA_Matrix) : ℕ :=
  if m.isRooted then 2 else 3

/-- The main joining loop of `constructTree` (upgma.h lines 228-234),
with an explicit fuel counter standing in for the `while` loop (each
iteration removes exactly one row, so any fuel of at least
`row_count - degree_of_root` computes the loop's fixpoint; `joinLoop`
below passes `row_count`).  The loop variable `best` is threaded through,
as in the C++ where `Position<T> best` is declared outside the loop. -/
def joinLoopFuel : ℕ → StartTree.Position → UPGMA_Matrix → UPGMA_Matrix
  | 0, _, m => m
  | fuel + 1, best, m =>
    if m.degreeOfRoot < m.rows.length then
      let best1 := getMinimumEntry best m.getRowMinima
      joinLoopFuel fuel best1 (m.cluster best1.column.toNat best1.row.toNat)
    else m

/-- The loop `while (degree_of_root < row_count) { getMinimumEntry(best);
cluster(best.column, best.row); }` with `best` starting default
constructed. -/
def UPGMA_Matrix.joinLoop (m : UPGMA_Matrix) : UPGMA_Matrix :=
  joinLoopFuel m.rows.length ⟨0, 0, 0, 0⟩ m

/-- Modelled from the spec: the row fingerprinting and duplicate grouping
(`HashRow<T>` / `HashRow::identifyDuplicateClusters` of hashrow.h, not in
`src/`).  Per §4.3 of the spec, rows with identical content form one
duplicate-set (exact matches; the grouping is consumed as ground truth);
each set holds the cluster ids (`rowToCluster`) of its rows.  Only sets of
two or more matter downstream, and the ordering of sets — which in the C++
comes from sorting by hash — is not fixed by the spec; content grouping is
used here. -/
def UPGMA_Matrix.identifyDuplicateClusters (m : UPGMA_Matrix) : List (List ℕ) :=
  (m.rows.dedup.map (fun key =>
      ((List.range m.rows.length).filter (fun i => m.rows.getD i [] = key)).map
        (fun i => m.rowToCluster.getD i 0))).filter
    (fun g => 2 ≤ g.length)

/-- The `if (row_b < row_a) { std::swap(row_a, row_b); }` step of
`joinUpDuplicateClusters` (upgma.h lines 433-435): order the two rows so
that the smaller one is passed first to `cluster`. -/
def orderRows (row_a row_b : ℤ) : ℤ × ℤ :=
  if row_b < row_a then (row_b, row_a) else (row_a, row_b)

/-- State threaded through `joinUpDuplicateClusters` (upgma.h lines
398-455): the matrix state, the `cluster_to_row` map (entries `-1` for
clusters no longer in the matrix), the duplicate-set `vc` currently being
worked, and a trace of the joins performed — each entry is
`(cluster_a, cluster_b, cluster_c)`: the two cluster ids read from `vc`
and the id of the freshly created joined cluster. -/
structure DupState where
  m : UPGMA_Matrix
  cluster_to_row : List ℤ
  vc : List ℕ
  trace : List (ℕ × ℕ × ℕ)
  deriving DecidableEq, Repr

/-- One iteration of the pairing `for` loop of `joinUpDuplicateClusters`
(upgma.h lines 427-441): read `cluster_a = vc[i]`,
`cluster_b = vc[i+second_half]`, map them to rows, remember
`cluster_c = clusters.size()`, order the rows, remember
`cluster_x = rowToCluster[row_count-1]`, join via `cluster`, store the new
cluster id in slot `i`, push the new cluster's row onto `cluster_to_row`
and record that `cluster_x` now lives at the higher row. -/
def dupPairStep (s : DupState) (i second_half : ℕ) : DupState :=
  let cluster_a := s.vc.getD i 0
  let row_a := s.cluster_to_row.getD cluster_a (-1)
  let cluster_b := s.vc.getD (i + second_half) 0
  let row_b := s.cluster_to_row.getD cluster_b (-1)
  let cluster_c := s.m.clusters.length
  let p := orderRows row_a row_b
  let cluster_x := s.m.rowToCluster.getD (s.m.rows.length - 1) 0
  let m1 := s.m.cluster p.1.toNat p.2.toNat
  { m := m1
    cluster_to_row := (s.cluster_to_row ++ [p.1]).set cluster_x p.2
    vc := s.vc.set i cluster_c
    trace := s.trace ++ [(cluster_a, cluster_b, cluster_c)] }

/-- The pairing `for` loop
`for (intptr_t i=0; i<first_half && 3<row_count; ++i)` (upgma.h lines
427-441), fuel-counted (the loop body runs at most `first_half` times, so
`dupOneRound` passes `first_half` as fuel). -/
def dupInnerLoop (second_half first_half : ℕ) : ℕ → ℕ → DupState → DupState
  | 0, _, s => s
  | fuel + 1, i, s =>
    if i < first_half ∧ 3 < s.m.rows.length then
      dupInnerLoop second_half first_half fuel (i + 1) (dupPairStep s i second_half)
    else s

/-- The halve-and-pair `while (vc.size()>1 && 3<row_count)` loop of
`joinUpDuplicateClusters` (upgma.h lines 424-446), fuel-counted (each
round shrinks `vc` to `second_half < vc.size()`, so fuel `vc.length`
computes the fixpoint).  `first_half = vc.size()/2` rounds down,
`second_half = vc.size() - first_half` rounds up; after the pairing loop
`vc.resize(second_half)` shrinks the set, keeping any odd middle element
in play. -/
def dupWhileLoop : ℕ → DupState → DupState
  | 0, s => s
  | fuel + 1, s =>
    if 1 < s.vc.length ∧ 3 < s.m.rows.length then
      let first_half := s.vc.length / 2
      let second_half := s.vc.length - first_half
      let s1 := dupInnerLoop second_half first_half first_half 0 s
      dupWhileLoop fuel { s1 with vc := s1.vc.take second_half }
    else s

/-- The coalescing pass `UPGMA_Matrix::joinUpDuplicateClusters` (upgma.h lines 398-455),
without the progress-display bookkeeping: nothing to do when `vvc` is
empty; otherwise build `cluster_to_row` (size `clusters.size()`, `-1`
everywhere, then `cluster_to_row[rowToCluster[i]] = i` for each live row),
run the halve-and-pair loop on every duplicate-set, and return the new
state together with `dupes_removed = Σ (vc.size()-1)`. -/
def UPGMA_Matrix.joinUpDuplicateClusters (m : UPGMA_Matrix) (vvc : List (List ℕ)) :
    UPGMA_Matrix × ℕ :=
  if vvc.isEmpty then (m, 0) else
  let base : List ℤ := List.replicate m.clusters.length (-1)
  let ctr0 := (List.range m.rows.length).foldl
    (fun c i => c.set (m.rowToCluster.getD i 0) (i : ℤ)) base
  let fin := vvc.foldl
    (fun (st : UPGMA_Matrix × List ℤ × ℕ) vc =>
      let s := dupWhileLoop vc.length ⟨st.1, st.2.1, vc, []⟩
      (s.m, s.cluster_to_row, st.2.2 + (vc.length - 1)))
    (m, ctr0, 0)
  (fin.1, fin.2.2)

/-- The pre-pass `UPGMA_Matrix::clusterDuplicates` (upgma.h lines 352-376):
fingerprint the rows, group duplicates and join them up.
(`calculateRowHashes` and the sort feed `identifyDuplicateClusters`, both
subsumed by the modelled grouping; the progress display and the final
message are observational only.) -/
def UPGMA_Matrix.clusterDuplicates (m : UPGMA_Matrix) : UPGMA_Matrix :=
  (m.joinUpDuplicateClusters m.identifyDuplicateClusters).1

/-- The driver `UPGMA_Matrix::constructTree` (upgma.h lines 213-240):
`clusterDuplicates()`, then the main joining loop, then
`finishClustering()`.  The C++ returns `bool` (always `true`);
the embedding's `Option` carries the totality of the bounds-checked
finishing step — `none` means the run aborted inside
`finishClustering`. -/
def UPGMA_Matrix.constructTree (m : UPGMA_Matrix) : Option UPGMA_Matrix :=
  m.clusterDuplicates.joinLoop.finishClustering

/-- Modelled from the spec: `SquareMatrix::setSize(rank)` allocates
`rank × rank` zeroed storage (distancematrix.h is not in `src/`; §3 "Live
row space", §6 matrix loader).  The override in `UPGMA_Matrix::setSize`
(upgma.h lines 172-178) then rebuilds `rowToCluster` as the identity. -/
def UPGMA_Matrix.setSize (m : UPGMA_Matrix) (rank : ℕ) : UPGMA_Matrix :=
  { m with
      rows := List.replicate rank (List.replicate rank 0)
      rowToCluster := List.range rank }

/-- Modelled from the spec: `SquareMatrix::loadDistancesFromFlatArray`
(distancematrix.h is not in `src/`; §6): `rows[r][c] = flat[r*rank+c]`. -/
def UPGMA_Matrix.loadDistancesFromFlatArray (m : UPGMA_Matrix) (flat : List ℚ) :
    UPGMA_Matrix :=
  { m with
      rows := (List.range m.rows.length).map (fun r =>
        (List.range m.rows.length).map (fun c =>
          flat.getD (r * m.rows.length + c) 0)) }

/-- The loader `UPGMA_Matrix::loadMatrix(names, matrix)` (upgma.h lines 187-200):
`setSize(names.size())`; `clusters.clear()` followed by one
`addCluster(name)` per name; `loadDistancesFromFlatArray`;
`calculateRowTotals()` (row-total caching, no field of this embedding);
`return true`.  The listed assumptions (more than 2 names, symmetric
matrix) are not checked. -/
def UPGMA_Matrix.loadMatrix (m : UPGMA_Matrix) (names : List String) (flat : List ℚ) :
    Bool × UPGMA_Matrix :=
  let m1 := m.setSize names.length
  let m2 := { m1 with clusters := names.foldl addLeafCluster [] }
  let m3 := m2.loadDistancesFromFlatArray flat
  (true, m3)

namespace VectorizedUPGMA

/-- The lane width of `FloatVector = Vec8f` / `FloatBoolVector = Vec8fb`
(upgma.h lines 104-105): `blockSize = VB().size() = 8`. -/
def blockSize : ℕ := 8

/-- Modelled from the spec: the `nums` array of
`VectorizedUPGMA_Matrix::getRowMinima` (upgma.h line 489).  The override
`calculateRowTotals` (upgma.h lines 484-487) only resizes
`scratchColumnNumbers` to `row_count + fluff` entries, value-initialised
to `0.0`; `matrixAlign` (distancematrix.h, not in `src/`) merely realigns
the pointer inside that zero-filled buffer, so every entry read through
`nums` is `0`. -/
def nums (rc : ℕ) : List ℚ :=
  List.replicate (rc + blockSize) 0

/-- One lane-parallel block of the vectorized scan (upgma.h lines 502-508):
`less = rowVector < minVector`, `ixVector = select(less, numVector,
ixVector)`, `minVector = select(less, rowVector, minVector)`, lanewise over
the `blockSize` lanes at columns `col, col+1, …`. -/
def blockLaneStep (rowData ns : List ℚ) (col : ℕ) (mv iv : List ℚ) :
    List ℚ × List ℚ :=
  ((List.range blockSize).map fun c =>
     if rowData.getD (col + c) 0 < mv.getD c 0 then rowData.getD (col + c) 0
     else mv.getD c 0,
   (List.range blockSize).map fun c =>
     if rowData.getD (col + c) 0 < mv.getD c 0 then ns.getD (col + c) 0
     else iv.getD c 0)

/-- The block loop `for (col=0; col+blockSize<row; col+=blockSize)`
(upgma.h lines 502-508), fuel-counted (the loop advances `col` by
`blockSize ≥ 1` each time, so fuel `row` suffices; `scanRowVec` passes
`row`).  Returns the final `minVector`, `ixVector` and the value of `col`
left for the scalar tail. -/
def blockLoop (rowData ns : List ℚ) (row : ℕ) :
    ℕ → ℕ → List ℚ → List ℚ → List ℚ × List ℚ × ℕ
  | 0, col, mv, iv => (mv, iv, col)
  | fuel + 1, col, mv, iv =>
    if col + blockSize < row then
      let s := blockLaneStep rowData ns col mv iv
      blockLoop rowData ns row fuel (col + blockSize) s.1 s.2
    else (mv, iv, col)

/-- One row of `VectorizedUPGMA_Matrix::getRowMinima` (upgma.h lines
495-524): `pos` starts as `(row, 0, infiniteDistance, 0)`;
`minVector = infiniteDistance`, `ixVector = -1`; the block loop; the
lane-reduction `if (minVector[c] < pos.value) { pos.value = minVector[c];
pos.column = (size_t)ixVector[c]; }` (the float-to-integer cast is the
floor, exact on the whole numbers stored in the lanes); the scalar tail
over the remaining columns; finally
`pos.imbalance = getImbalance(pos.row, pos.column)`. -/
def scanRowVec (m : StartTree.UPGMA_Matrix) (row : ℕ) : StartTree.Position :=
  let rowData := m.rows.getD row []
  let ns := nums m.rows.length
  let b := blockLoop rowData ns row row 0
    (List.replicate blockSize infiniteDistance) (List.replicate blockSize (-1))
  let e := (List.range blockSize).foldl
    (fun (p : ℤ × ℚ) c =>
      if b.1.getD c 0 < p.2 then ((b.2.1.getD c 0).floor, b.1.getD c 0) else p)
    ((0 : ℤ), infiniteDistance)
  let t := (List.range' b.2.2 (row - b.2.2)).foldl
    (fun (p : ℤ × ℚ) col =>
      if rowData.getD col 0 < p.2 then ((col : ℤ), rowData.getD col 0) else p)
    e
  ⟨(row : ℤ), t.1, t.2, m.getImbalance row t.1.toNat⟩

/-- The override `VectorizedUPGMA_Matrix::getRowMinima` (upgma.h lines 488-526): same
frame as the scalar scanner — sentinel at entry 0, `scanRowVec` for each
row `1 ≤ r < row_count`. -/
def getRowMinima (m : StartTree.UPGMA_Matrix) : List StartTree.Position :=
  if m.rows.length = 0 then [] else
  ⟨0, 0, infiniteDistance, 0⟩ ::
    (List.range' 1 (m.rows.length - 1)).map (scanRowVec m)

end VectorizedUPGMA

/-- The effect of one halving round of `joinUpDuplicateClusters` (upgma.h
lines 424-446) on a duplicate-set state `s`, stated over the embedding:
with `first_half = vc.size()/2` (rounded down) and
`second_half = vc.size() - first_half` (rounded up, `= ⌈vc.size()/2⌉`),
the pairing loop pairs element `t` of the first half with element
`t + second_half`, joins each such pair (appending one cluster record per
pair, ids `clusters.size(), clusters.size()+1, …`, and removing one row
per pair), stores the fresh id in slot `t`, and the `vc.resize` shrink
leaves `second_half` elements: the new ids followed by the odd middle
element (if any); one `while` iteration then recurses on the shrunk
set. -/
def dupRoundSpec (s : DupState) : Prop :=
  let k := s.vc.length
  let first_half := k / 2
  let second_half := k - first_half
  let s1 := dupInnerLoop second_half first_half first_half 0 s
  second_half = (k + 1) / 2 ∧
  s1.vc.take second_half
    = (List.range first_half).map (fun t => s.m.clusters.length + t)
        ++ (s.vc.drop first_half).take (second_half - first_half) ∧
  (s1.vc.take second_half).length = second_half ∧
  s1.trace = s.trace ++ (List.range first_half).map
      (fun t => (s.vc.getD t 0, s.vc.getD (t + second_half) 0,
                 s.m.clusters.length + t)) ∧
  s1.m.clusters.length = s.m.clusters.length + first_half ∧
  s1.m.rows.length = s.m.rows.length - first_half ∧
  ∀ fuel, dupWhileLoop (fuel + 1) s
    = dupWhileLoop fuel { s1 with vc := s1.vc.take second_half }

/-- A list of `n` leaf cluster records, as seeded by `loadMatrix` /
`setSize` (one cluster per taxon, each subtending one exterior node). -/
def leafClusters (n : ℕ) : List ClusterRecord :=
  (List.range n).map (fun _ => ⟨"", [], 1⟩)

/-- A freshly loaded 3-taxon state (pairwise-distinct rows, symmetric),
unrooted. -/
def threeTaxaUnrooted : UPGMA_Matrix :=
  { rows := [[0, 4, 5], [4, 0, 6], [5, 6, 0]]
    rowToCluster := [0, 1, 2]
    clusters := leafClusters 3
    isRooted := false }

/-- The same 3-taxon state, rooted. -/
def threeTaxaRooted : UPGMA_Matrix :=
  { threeTaxaUnrooted with isRooted := true }

/-- A 2-row state as `finishClustering` receives it for a rooted tree. -/
def twoRowsRemaining : UPGMA_Matrix :=
  { rows := [[0, 3], [3, 0]]
    rowToCluster := [0, 1]
    clusters := leafClusters 2
    isRooted := true }

/-- A 3-row state as `finishClustering` receives it for an unrooted
tree. -/
def threeRowsRemaining : UPGMA_Matrix :=
  { rows := [[0, 2, 3], [2, 0, 4], [3, 4, 0]]
    rowToCluster := [0, 1, 2]
    clusters := leafClusters 3
    isRooted := false }

/-- A symmetric 10×10 state with pairwise-distinct lower-triangle entries
in every row (`D r c = r + c` for the first nine taxa, a permuted column
for taxon 9); the minimum of row 9 sits at column 3, inside the first
8-lane block of the vectorized scan. -/
def tenTaxa : UPGMA_Matrix :=
  { rows :=
      [[0, 1, 2, 3, 4, 5, 6, 7, 8, 5],
       [1, 0, 3, 4, 5, 6, 7, 8, 9, 6],
       [2, 3, 0, 5, 6, 7, 8, 9, 10, 2],
       [3, 4, 5, 0, 7, 8, 9, 10, 11, 1],
       [4, 5, 6, 7, 0, 9, 10, 11, 12, 7],
       [5, 6, 7, 8, 9, 0, 11, 12, 13, 8],
       [6, 7, 8, 9, 10, 11, 0, 13, 14, 9],
       [7, 8, 9, 10, 11, 12, 13, 0, 15, 10],
       [8, 9, 10, 11, 12, 13, 14, 15, 0, 4],
       [5, 6, 2, 1, 7, 8, 9, 10, 4, 0]]
    rowToCluster := [0, 1, 2, 3, 4, 5, 6, 7, 8, 9]
    clusters := leafClusters 10
    isRooted := false }

/-- A 4-row state used to exercise one halve-and-pair round of the
duplicate-coalescing pass. -/
def fourTaxa : UPGMA_Matrix :=
  { rows := [[0, 1, 2, 3], [1, 0, 4, 5], [2, 4, 0, 6], [3, 5, 6, 0]]
    rowToCluster := [0, 1, 2, 3]
    clusters := leafClusters 4
    isRooted := false }

/-- A duplicate-pass state over `fourTaxa` with the two-element
duplicate-set `{cluster 0, cluster 1}`. -/
def fourTaxaDupState : DupState :=
  { m := fourTaxa
    cluster_to_row := [0, 1, 2, 3]
    vc := [0, 1]
    trace := [] }

/-- The state before any matrix is loaded. -/
def emptyMatrix : UPGMA_Matrix :=
  { rows := [], rowToCluster := [], clusters := [], isRooted := false }

section ListHelpers

variable {α : Type}

lemma getD_set_self (l : List α) (i : ℕ) (v d : α) (h : i < l.length) :
    (l.set i v).getD i d = v := by
  induction l generalizing i with
  | nil => simp at h
  | cons x xs ih =>
    cases i with
    | zero => rfl
    | succ j => simpa using ih j (by simpa using h)

lemma getD_set_ne (l : List α) (i j : ℕ) (v d : α) (h : i ≠ j) :
    (l.set i v).getD j d = l.getD j d := by
  induction l generalizing i j with
  | nil => simp
  | cons x xs ih =>
    cases i with
    | zero =>
      cases j with
      | zero => exact absurd rfl h
      | succ j2 => simp
    | succ i2 =>
      cases j with
      | zero => simp
      | succ j2 => simpa using ih i2 j2 (by omega)

lemma getD_take_of_lt (l : List α) (n j : ℕ) (d : α) (h : j < n) :
    (l.take n).getD j d = l.getD j d := by
  induction l generalizing n j with
  | nil => simp
  | cons x xs ih =>
    cases n with
    | zero => omega
    | succ n2 =>
      cases j with
      | zero => simp
      | succ j2 => simpa using ih n2 j2 (by omega)

lemma getD_drop_add (l : List α) (i j : ℕ) (d : α) :
    (l.drop i).getD j d = l.getD (i + j) d := by
  induction l generalizing i with
  | nil => simp
  | cons x xs ih =>
    cases i with
    | zero => simp
    | succ i2 =>
      have : i2 + 1 + j = (i2 + j) + 1 := by omega
      rw [this]
      simp only [List.drop_succ_cons, List.getD_cons_succ]
      exact ih i2

lemma drop_set_of_lt (l : List α) (i k : ℕ) (v : α) (h : i < k) :
    (l.set i v).drop k = l.drop k := by
  induction l generalizing i k with
  | nil => simp
  | cons x xs ih =>
    cases i with
    | zero =>
      cases k with
      | zero => omega
      | succ k2 => simp
    | succ i2 =>
      cases k with
      | zero => omega
      | succ k2 => simpa using ih i2 k2 (by omega)

lemma getD_range_of_lt (n j : ℕ) (h : j < n) : (List.range n).getD j 0 = j := by
  rw [List.getD_eq_getElem _ _ (by simpa using h)]
  exact List.getElem_range j (by simpa using h)

lemma ext_by_getD (l1 l2 : List α) (d : α) (hl : l1.length = l2.length)
    (h : ∀ j, j < l1.length → l1.getD j d = l2.getD j d) : l1 = l2 := by
  apply List.ext_getElem hl
  intro i h1 h2
  have h3 := h i h1
  rwa [List.getD_eq_getElem _ _ h1, List.getD_eq_getElem _ _ h2] at h3

end ListHelpers

lemma foldl_addLeafCluster (names : List String) (init : List ClusterRecord) :
    names.foldl addLeafCluster init = init ++ names.map (fun nm => ⟨nm, [], 1⟩) := by
  induction names generalizing init with
  | nil => simp
  | cons h t ih => simp [List.foldl_cons, ih, addLeafCluster]

/-- Unfolding one column of the scalar row scan. -/
lemma scanRowForMinimum_succ (rowData : List ℚ) (n : ℕ) :
    scanRowForMinimum rowData (n + 1)
      = scanStep rowData (scanRowForMinimum rowData n) n := by
  unfold scanRowForMinimum
  rw [List.range_succ, List.foldl_append]
  rfl

/-- Behaviour of the scalar row scan: either no column beat the
`infiniteDistance` seed (and then every scanned column is at least
`infiniteDistance`, the reported column is the seed `0` and the reported
value the seed), or the reported column is a scanned column whose value is
the reported value, beats the seed, and is a minimum over all scanned
columns. -/
lemma scanRow_spec (rowData : List ℚ) (row : ℕ) :
    ((scanRowForMinimum rowData row).1 = 0 ∧
     (scanRowForMinimum rowData row).2 = infiniteDistance ∧
     ∀ j, j < row → infiniteDistance ≤ rowData.getD j 0) ∨
    ((scanRowForMinimum rowData row).1 < row ∧
     (scanRowForMinimum rowData row).2
       = rowData.getD (scanRowForMinimum rowData row).1 0 ∧
     (scanRowForMinimum rowData row).2 < infiniteDistance ∧
     ∀ j, j < row → (scanRowForMinimum rowData row).2 ≤ rowData.getD j 0) := by
  induction row with
  | zero => exact Or.inl ⟨rfl, rfl, fun j hj => by omega⟩
  | succ n ih =>
    have hle : (scanRowForMinimum rowData n).2 ≤ infiniteDistance := by
      rcases ih with ⟨_, h2, _⟩ | ⟨_, _, h3, _⟩
      · exact le_of_eq h2
      · exact le_of_lt h3
    by_cases hlt : rowData.getD n 0 < (scanRowForMinimum rowData n).2
    · have hres : scanRowForMinimum rowData (n + 1) = (n, rowData.getD n 0) := by
        rw [scanRowForMinimum_succ]
        unfold scanStep
        rw [if_pos hlt]
      refine Or.inr ?_
      rw [hres]
      refine ⟨by omega, rfl, lt_of_lt_of_le hlt hle, ?_⟩
      intro j hj
      rcases Nat.lt_succ_iff_lt_or_eq.mp hj with hj2 | hj2
      · rcases ih with ⟨_, h2, h3⟩ | ⟨_, _, _, h4⟩
        · exact le_of_lt (lt_of_lt_of_le (h2 ▸ hlt) (h3 j hj2))
        · exact le_of_lt (lt_of_lt_of_le hlt (h4 j hj2))
      · subst hj2
        exact le_refl _
    · have hres : scanRowForMinimum rowData (n + 1) = scanRowForMinimum rowData n := by
        rw [scanRowForMinimum_succ]
        unfold scanStep
        rw [if_neg hlt]
      have hge : (scanRowForMinimum rowData n).2 ≤ rowData.getD n 0 := not_lt.mp hlt
      rcases ih with ⟨h1, h2, h3⟩ | ⟨h1, h2, h3, h4⟩
      · refine Or.inl ⟨hres ▸ h1, hres ▸ h2, ?_⟩
        intro j hj
        rcases Nat.lt_succ_iff_lt_or_eq.mp hj with hj2 | hj2
        · exact h3 j hj2
        · subst hj2
          exact h2 ▸ hge
      · refine Or.inr ⟨hres ▸ (by omega : (scanRowForMinimum rowData n).1 < n + 1),
          hres ▸ h2, hres ▸ h3, ?_⟩
        intro j hj
        rw [hres]
        rcases Nat.lt_succ_iff_lt_or_eq.mp hj with hj2 | hj2
        · exact h4 j hj2
        · subst hj2
          exact hge

/-- The value computed by the `getMinimumEntry` fold never exceeds the
accumulator's value nor the value of any non-sentinel entry of the
list. -/
lemma minEntryFold_le (mins : List Position) (b : Position) :
    (mins.foldl minEntryStep b).value ≤ b.value ∧
    ∀ p ∈ mins, p.row ≠ p.column → (mins.foldl minEntryStep b).value ≤ p.value := by
  induction mins generalizing b with
  | nil => exact ⟨le_refl _, by simp⟩
  | cons hd t ih =>
    have hb : (minEntryStep b hd).value ≤ b.value := by
      unfold minEntryStep
      split
      · next hc => exact le_of_lt hc.1
      · exact le_refl _
    obtain ⟨ih1, ih2⟩ := ih (minEntryStep b hd)
    refine ⟨le_trans ih1 hb, ?_⟩
    intro p hp hpc
    rcases List.mem_cons.mp hp with rfl | hp2
    · refine le_trans ih1 ?_
      unfold minEntryStep
      split
      · exact le_refl _
      · next hc =>
        exact not_lt.mp (fun hlt => hc ⟨hlt, hpc⟩)
    · exact ih2 p hp2 hpc

/-- The `getMinimumEntry` fold either leaves the accumulator untouched, or
returns the first entry, in scan order, that strictly beats the
accumulator's value and every earlier non-sentinel entry's value; the
returned entry is a non-sentinel element of the list. -/
lemma minEntryFold_cases (mins : List Position) (b : Position) :
    mins.foldl minEntryStep b = b ∨
    ∃ i, i < mins.length ∧ mins.foldl minEntryStep b = mins.getD i default ∧
      (mins.getD i default).row ≠ (mins.getD i default).column ∧
      (mins.getD i default).value < b.value ∧
      ∀ j, j < i → (mins.getD j default).row ≠ (mins.getD j default).column →
        (mins.getD i default).value < (mins.getD j default).value := by
  induction mins generalizing b with
  | nil => exact Or.inl rfl
  | cons hd t ih =>
    have hstep : (hd :: t).foldl minEntryStep b = t.foldl minEntryStep (minEntryStep b hd) :=
      rfl
    by_cases hc : hd.value < b.value ∧ hd.row ≠ hd.column
    · have hbstep : minEntryStep b hd = hd := by
        unfold minEntryStep
        rw [if_pos hc]
      rcases ih (minEntryStep b hd) with h1 | ⟨i, hi, heq, hns, hlt, hfirst⟩
      · refine Or.inr ⟨0, by simp, ?_, by simpa using hc.2, by simpa using hc.1, by omega⟩
        rw [hstep, h1, hbstep]
        rfl
      · refine Or.inr ⟨i + 1, by simpa using hi, ?_, ?_, ?_, ?_⟩
        · rw [hstep, heq]
          simp [List.getD_cons_succ]
        · simpa [List.getD_cons_succ] using hns
        · have h2 : (t.getD i default).value < hd.value := by
            rw [← hbstep]
            exact hlt
          simpa [List.getD_cons_succ] using lt_trans h2 hc.1
        · intro j hj hjns
          cases j with
          | zero =>
            have h2 : (t.getD i default).value < hd.value := by
              rw [← hbstep]
              exact hlt
            simpa [List.getD_cons_succ, List.getD_cons_zero] using h2
          | succ j2 =>
            have h2 := hfirst j2 (by omega) (by simpa [List.getD_cons_succ] using hjns)
            simpa [List.getD_cons_succ] using h2
    · have hbstep : minEntryStep b hd = b := by
        unfold minEntryStep
        rw [if_neg hc]
      have hble : hd.row ≠ hd.column → b.value ≤ hd.value := fun hns =>
        not_lt.mp (fun hlt => hc ⟨hlt, hns⟩)
      rcases ih (minEntryStep b hd) with h1 | ⟨i, hi, heq, hns, hlt, hfirst⟩
      · refine Or.inl ?_
        rw [hstep, h1, hbstep]
      · refine Or.inr ⟨i + 1, by simpa using hi, ?_, ?_, ?_, ?_⟩
        · rw [hstep, heq]
          simp [List.getD_cons_succ]
        · simpa [List.getD_cons_succ] using hns
        · have h2 : (t.getD i default).value < b.value := by
            rw [← hbstep]
            exact hlt
          simpa [List.getD_cons_succ] using h2
        · intro j hj hjns
          cases j with
          | zero =>
            have h2 : (t.getD i default).value < b.value := by
              rw [← hbstep]
              exact hlt
            have h3 := hble (by simpa [List.getD_cons_zero] using hjns)
            simpa [List.getD_cons_succ, List.getD_cons_zero] using lt_of_lt_of_le h2 h3
          | succ j2 =>
            have h2 := hfirst j2 (by omega) (by simpa [List.getD_cons_succ] using hjns)
            simpa [List.getD_cons_succ] using h2

/-- C1 (counterexample): `getMinimumEntry` does not return the minimum
`Position` under the order "value ascending, then imbalance ascending".
On a `rowMinima` holding two non-sentinel candidates of equal value 5 and
imbalances 7 and 1, it returns the imbalance-7 candidate (the first one
scanned), although the imbalance-1 candidate is strictly smaller under
`Position::operator<`. -/
theorem claim_c1_counterexample :
    getMinimumEntry ⟨0, 0, 0, 0⟩ [⟨1, 0, 5, 7⟩, ⟨2, 0, 5, 1⟩] = ⟨1, 0, 5, 7⟩ ∧
    Position.lt ⟨2, 0, 5, 1⟩ ⟨1, 0, 5, 7⟩ ∧
    (⟨2, 0, 5, 1⟩ : Position).row ≠ (⟨2, 0, 5, 1⟩ : Position).column ∧
    (⟨2, 0, 5, 1⟩ : Position) ∈ [(⟨1, 0, 5, 7⟩ : Position), ⟨2, 0, 5, 1⟩] := by
  refine ⟨by decide, by decide, by decide, by decide⟩

lemma getRowMinima_length (m : UPGMA_Matrix) (h0 : m.rows.length ≠ 0) :
    m.getRowMinima.length = m.rows.length := by
  unfold UPGMA_Matrix.getRowMinima
  rw [if_neg h0]
  simp only [List.length_cons, List.length_map, List.length_range']
  omega

lemma getRowMinima_getD_zero (m : UPGMA_Matrix) (h0 : m.rows.length ≠ 0) :
    m.getRowMinima.getD 0 default = ⟨0, 0, infiniteDistance, 0⟩ := by
  unfold UPGMA_Matrix.getRowMinima
  rw [if_neg h0]
  rfl

lemma getRowMinima_getD (m : UPGMA_Matrix) (r : ℕ) (h1 : 1 ≤ r)
    (h2 : r < m.rows.length) :
    m.getRowMinima.getD r default = rowMinEntry m r := by
  unfold UPGMA_Matrix.getRowMinima
  rw [if_neg (by omega)]
  obtain ⟨r2, rfl⟩ : ∃ r2, r = r2 + 1 := ⟨r - 1, by omega⟩
  rw [List.getD_cons_succ]
  have hlen : r2 < ((List.range' 1 (m.rows.length - 1)).map (rowMinEntry m)).length := by
    simp only [List.length_map, List.length_range']
    omega
  rw [List.getD_eq_getElem _ _ hlen]
  simp only [List.getElem_map, List.getElem_range'_1]
  congr 1
  omega

lemma mem_getRowMinima (m : UPGMA_Matrix) (p : Position) (hp : p ∈ m.getRowMinima) :
    p = ⟨0, 0, infiniteDistance, 0⟩ ∨
    ∃ r, 1 ≤ r ∧ r < m.rows.length ∧ p = rowMinEntry m r := by
  unfold UPGMA_Matrix.getRowMinima at hp
  by_cases h0 : m.rows.length = 0
  · rw [if_pos h0] at hp
    simp at hp
  · rw [if_neg h0] at hp
    rcases List.mem_cons.mp hp with rfl | hp2
    · exact Or.inl rfl
    · obtain ⟨r, hr, rfl⟩ := List.mem_map.mp hp2
      have h3 := List.mem_range'_1.mp hr
      exact Or.inr ⟨r, h3.1, by omega, rfl⟩

lemma scanRow_column_lt (rowData : List ℚ) (row : ℕ) (h : 1 ≤ row) :
    (scanRowForMinimum rowData row).1 < row := by
  rcases scanRow_spec rowData row with ⟨h1, _, _⟩ | ⟨h1, _, _⟩
  · omega
  · exact h1

lemma rowMinEntry_column_lt_row (m : UPGMA_Matrix) (r : ℕ) (h : 1 ≤ r) :
    (rowMinEntry m r).column < (rowMinEntry m r).row := by
  have h2 := scanRow_column_lt (m.rows.getD r []) r h
  show ((scanRowForMinimum (m.rows.getD r []) r).1 : ℤ) < (r : ℤ)
  exact_mod_cast h2

lemma getD_mem_of_lt (l : List ℚ) (j : ℕ) (h : j < l.length) : l.getD j 0 ∈ l := by
  rw [List.getD_eq_getElem _ _ h]
  exact List.getElem_mem h

lemma rows_getD_mem (m : UPGMA_Matrix) (r : ℕ) (h : r < m.rows.length) :
    m.rows.getD r [] ∈ m.rows := by
  rw [List.getD_eq_getElem _ _ h]
  exact List.getElem_mem h

lemma updateRowDistances_length (f : ℕ → ℚ) (a b : ℕ) (j : ℕ) (r : List ℚ) :
    (updateRowDistances f a b j r).length = r.length := by
  induction r generalizing j with
  | nil => rfl
  | cons x xs ih => simpa [updateRowDistances] using ih (j + 1)

lemma updateRowDistances_getD (f : ℕ → ℚ) (a b j : ℕ) (r : List ℚ) (k : ℕ)
    (h : k < r.length) :
    (updateRowDistances f a b j r).getD k 0
      = if j + k ≠ a ∧ j + k ≠ b then f (j + k) else r.getD k 0 := by
  induction r generalizing j k with
  | nil => simp at h
  | cons x xs ih =>
    cases k with
    | zero => simp [updateRowDistances]
    | succ k2 =>
      have h2 := ih (j + 1) k2 (by simpa using h)
      have harith : j + 1 + k2 = j + (k2 + 1) := by omega
      rw [harith] at h2
      simpa [updateRowDistances] using h2

lemma writeNewDistances_length (f : ℕ → ℚ) (a b : ℕ) (i : ℕ) (rs : List (List ℚ)) :
    (writeNewDistances f a b i rs).length = rs.length := by
  induction rs generalizing i with
  | nil => rfl
  | cons r rs2 ih => simpa [writeNewDistances] using ih (i + 1)

lemma writeNewDistances_getD (f : ℕ → ℚ) (a b i : ℕ) (rs : List (List ℚ)) (k : ℕ)
    (h : k < rs.length) :
    (writeNewDistances f a b i rs).getD k []
      = if i + k = a then updateRowDistances f a b 0 (rs.getD k [])
        else if i + k = b then rs.getD k []
        else (rs.getD k []).set a (f (i + k)) := by
  induction rs generalizing i k with
  | nil => simp at h
  | cons r rs2 ih =>
    cases k with
    | zero => simp [writeNewDistances]
    | succ k2 =>
      have h2 := ih (i + 1) k2 (by simpa using h)
      have harith : i + 1 + k2 = i + (k2 + 1) := by omega
      rw [harith] at h2
      simpa [writeNewDistances] using h2

lemma writeNewDistances_getD_zero (f : ℕ → ℚ) (a b : ℕ) (rs : List (List ℚ)) (k : ℕ)
    (h : k < rs.length) :
    (writeNewDistances f a b 0 rs).getD k []
      = if k = a then updateRowDistances f a b 0 (rs.getD k [])
        else if k = b then rs.getD k []
        else (rs.getD k []).set a (f k) := by
  simpa using writeNewDistances_getD f a b 0 rs k h

lemma removeRowAndColumn_length (rows : List (List ℚ)) (b : ℕ) :
    (removeRowAndColumn rows b).length = rows.length - 1 := by
  unfold removeRowAndColumn
  simp [List.length_take, Nat.min_def]

lemma clusterJoinedRows_length (m : UPGMA_Matrix) (a b : ℕ) :
    (m.clusterJoinedRows a b).length = m.rows.length :=
  writeNewDistances_length _ a b 0 m.rows

/-- The `lambda` / `mu` weighting of `cluster`, rewritten with the casts pushed inward so
the statement of C5 can quote `countA/(countA+countB)` literally. -/
lemma newDistanceFun_spec (m : UPGMA_Matrix) (a b i : ℕ) :
    newDistanceFun m a b i
      = ((m.clusters.getD (m.rowToCluster.getD a 0) default).countOfExteriorNodes : ℚ)
          / (((m.clusters.getD (m.rowToCluster.getD a 0) default).countOfExteriorNodes : ℚ)
              + ((m.clusters.getD (m.rowToCluster.getD b 0) default).countOfExteriorNodes : ℚ))
          * ((m.rows.getD a []).getD i 0)
        + (1 - ((m.clusters.getD (m.rowToCluster.getD a 0) default).countOfExteriorNodes : ℚ)
              / (((m.clusters.getD (m.rowToCluster.getD a 0) default).countOfExteriorNodes : ℚ)
                  + ((m.clusters.getD (m.rowToCluster.getD b 0) default).countOfExteriorNodes : ℚ)))
          * ((m.rows.getD b []).getD i 0) := by
  unfold newDistanceFun
  push_cast
  rfl

lemma cluster_clusters_length (m : UPGMA_Matrix) (a b : ℕ) :
    (m.cluster a b).clusters.length = m.clusters.length + 1 := by
  simp [UPGMA_Matrix.cluster, addJoinCluster]

lemma cluster_rows_length (m : UPGMA_Matrix) (a b : ℕ) :
    (m.cluster a b).rows.length = m.rows.length - 1 := by
  rw [show (m.cluster a b).rows = removeRowAndColumn (m.clusterJoinedRows a b) b from rfl,
    removeRowAndColumn_length, clusterJoinedRows_length]

lemma dupPairStep_vc (s : DupState) (i second_half : ℕ) :
    (dupPairStep s i second_half).vc = s.vc.set i s.m.clusters.length := rfl

lemma dupPairStep_trace (s : DupState) (i second_half : ℕ) :
    (dupPairStep s i second_half).trace
      = s.trace ++ [(s.vc.getD i 0, s.vc.getD (i + second_half) 0,
                     s.m.clusters.length)] := rfl

lemma dupPairStep_clusters_length (s : DupState) (i second_half : ℕ) :
    (dupPairStep s i second_half).m.clusters.length = s.m.clusters.length + 1 :=
  cluster_clusters_length _ _ _

lemma dupPairStep_rows_length (s : DupState) (i second_half : ℕ) :
    (dupPairStep s i second_half).m.rows.length = s.m.rows.length - 1 :=
  cluster_rows_length _ _ _

/-- Invariant-based characterization of the pairing loop of
`joinUpDuplicateClusters`, by induction on the remaining iterations:
starting from step `i` with `i + remaining = first_half`, enough rows in
play and the tail of `vc` from `i` still untouched, the loop joins the
pairs `(vc[t], vc[t+second_half])` for `t = i, …, first_half-1`, writes the
fresh ids `len0+t` into the slots `t`, appends one cluster record per pair
and removes one row per pair. -/
lemma dupInnerLoop_spec (second_half first_half : ℕ) (vc0 : List ℕ) (len0 rc0 : ℕ) :
    ∀ (remaining i : ℕ) (s : DupState),
      i + remaining = first_half →
      first_half ≤ vc0.length →
      3 + first_half ≤ rc0 →
      s.vc.length = vc0.length →
      s.vc.drop i = vc0.drop i →
      s.m.clusters.length = len0 + i →
      s.m.rows.length = rc0 - i →
      (dupInnerLoop second_half first_half remaining i s).vc.length = vc0.length ∧
      (∀ j, (dupInnerLoop second_half first_half remaining i s).vc.getD j 0
          = if i ≤ j ∧ j < first_half then len0 + j else s.vc.getD j 0) ∧
      (dupInnerLoop second_half first_half remaining i s).trace
        = s.trace ++ (List.range' i remaining).map
            (fun t => (vc0.getD t 0, vc0.getD (t + second_half) 0, len0 + t)) ∧
      (dupInnerLoop second_half first_half remaining i s).m.clusters.length
        = len0 + first_half ∧
      (dupInnerLoop second_half first_half remaining i s).m.rows.length
        = rc0 - first_half := by
  intro remaining
  induction remaining with
  | zero =>
    intro i s h1 h2 h3 h4 h5 h6 h7
    have h0 : dupInnerLoop second_half first_half 0 i s = s := rfl
    rw [h0]
    refine ⟨h4, ?_, by simp, by omega, by omega⟩
    intro j
    rw [if_neg (by omega)]
  | succ n ih =>
    intro i s h1 h2 h3 h4 h5 h6 h7
    have hif : i < first_half := by omega
    have hguard : i < first_half ∧ 3 < s.m.rows.length := ⟨hif, by omega⟩
    have hunfold0 : dupInnerLoop second_half first_half (n + 1) i s
        = if i < first_half ∧ 3 < s.m.rows.length then
            dupInnerLoop second_half first_half n (i + 1) (dupPairStep s i second_half)
          else s := rfl
    have hunfold : dupInnerLoop second_half first_half (n + 1) i s
        = dupInnerLoop second_half first_half n (i + 1) (dupPairStep s i second_half) := by
      rw [hunfold0, if_pos hguard]
    have he1 : s.vc.getD i 0 = vc0.getD i 0 := by
      have h8 := congrArg (fun l => List.getD l 0 0) h5
      simpa [getD_drop_add] using h8
    have he2 : s.vc.getD (i + second_half) 0 = vc0.getD (i + second_half) 0 := by
      have h8 := congrArg (fun l => List.getD l second_half 0) h5
      simpa [getD_drop_add] using h8
    have hvc2 : (dupPairStep s i second_half).vc = s.vc.set i (len0 + i) := by
      rw [dupPairStep_vc, h6]
    have hlen2 : (dupPairStep s i second_half).vc.length = vc0.length := by
      rw [hvc2]
      simpa using h4
    have hdrop2 : (dupPairStep s i second_half).vc.drop (i + 1) = vc0.drop (i + 1) := by
      rw [hvc2, drop_set_of_lt _ _ _ _ (by omega)]
      have h8 : s.vc.drop (i + 1) = (s.vc.drop i).drop 1 := by
        rw [List.drop_drop]
      have h9 : vc0.drop (i + 1) = (vc0.drop i).drop 1 := by
        rw [List.drop_drop]
      rw [h8, h9, h5]
    have hcl2 : (dupPairStep s i second_half).m.clusters.length = len0 + (i + 1) := by
      rw [dupPairStep_clusters_length, h6]
      omega
    have hrc2 : (dupPairStep s i second_half).m.rows.length = rc0 - (i + 1) := by
      rw [dupPairStep_rows_length, h7]
      omega
    obtain ⟨ih1, ih2, ih3, ih4, ih5⟩ :=
      ih (i + 1) (dupPairStep s i second_half) (by omega) h2 h3 hlen2 hdrop2 hcl2 hrc2
    rw [hunfold]
    refine ⟨ih1, ?_, ?_, ih4, ih5⟩
    · intro j
      rw [ih2 j]
      by_cases hj1 : i + 1 ≤ j ∧ j < first_half
      · rw [if_pos hj1, if_pos ⟨by omega, hj1.2⟩]
      · rw [if_neg hj1]
        by_cases hj2 : i ≤ j ∧ j < first_half
        · have hji : j = i := by omega
          subst hji
          rw [if_pos hj2, hvc2, getD_set_self _ _ _ _ (by omega)]
        · rw [if_neg hj2, hvc2, getD_set_ne _ _ _ _ _ (by omega)]
    · rw [ih3, dupPairStep_trace, he1, he2, h6, List.append_assoc, List.range'_succ]
      simp

/-- C1 (amended): for any `rowMinima` contents containing at least one
non-sentinel entry whose value beats the `infiniteDistance` seed,
`getMinimumEntry` returns a non-sentinel entry of minimal `value` among
all non-sentinel entries; when several non-sentinel entries tie on the
minimal value, the one at the smallest index (first in scan order) is
returned — `imbalance` is never consulted. -/
theorem claim_c1_amended (best0 : Position) (mins : List Position)
    (h : ∃ p ∈ mins, p.row ≠ p.column ∧ p.value < infiniteDistance) :
    ∃ i, i < mins.length ∧
      getMinimumEntry best0 mins = mins.getD i default ∧
      (mins.getD i default).row ≠ (mins.getD i default).column ∧
      (∀ q ∈ mins, q.row ≠ q.column → (mins.getD i default).value ≤ q.value) ∧
      ∀ j, j < i → (mins.getD j default).row ≠ (mins.getD j default).column →
        (mins.getD i default).value < (mins.getD j default).value := by
  obtain ⟨p, hp, hpns, hpval⟩ := h
  rcases minEntryFold_cases mins { best0 with value := infiniteDistance }
    with h1 | ⟨i, hi, heq, hns, hlt, hfirst⟩
  · exfalso
    have h2 := (minEntryFold_le mins { best0 with value := infiniteDistance }).2 p hp hpns
    rw [h1] at h2
    exact absurd (lt_of_le_of_lt h2 hpval) (lt_irrefl _)
  · refine ⟨i, hi, heq, hns, ?_, hfirst⟩
    intro q hq hqns
    have h2 := (minEntryFold_le mins { best0 with value := infiniteDistance }).2 q hq hqns
    rwa [heq] at h2

/-- Witness for C1 (amended) at a concrete one-entry `rowMinima`. -/
theorem claim_c1_amended_witness :
    (∃ p ∈ [(⟨1, 0, 5, 7⟩ : Position)], p.row ≠ p.column ∧ p.value < infiniteDistance) ∧
    (∃ i, i < [(⟨1, 0, 5, 7⟩ : Position)].length ∧
      getMinimumEntry ⟨0, 0, 0, 0⟩ [⟨1, 0, 5, 7⟩]
        = [(⟨1, 0, 5, 7⟩ : Position)].getD i default ∧
      ([(⟨1, 0, 5, 7⟩ : Position)].getD i default).row
        ≠ ([(⟨1, 0, 5, 7⟩ : Position)].getD i default).column ∧
      (∀ q ∈ [(⟨1, 0, 5, 7⟩ : Position)], q.row ≠ q.column →
        ([(⟨1, 0, 5, 7⟩ : Position)].getD i default).value ≤ q.value) ∧
      ∀ j, j < i →
        ([(⟨1, 0, 5, 7⟩ : Position)].getD j default).row
          ≠ ([(⟨1, 0, 5, 7⟩ : Position)].getD j default).column →
        ([(⟨1, 0, 5, 7⟩ : Position)].getD i default).value
          < ([(⟨1, 0, 5, 7⟩ : Position)].getD j default).value) :=
  ⟨by decide, claim_c1_amended ⟨0, 0, 0, 0⟩ [⟨1, 0, 5, 7⟩] (by decide)⟩

/-- C2 (counterexample): on an input with only two entities — a
precondition violation — `loadMatrix` does not fail fast before any
mutation: it reports success (`true`) and has already rebuilt the
row-to-cluster map and the cluster list. -/
theorem claim_c2_counterexample :
    (["a", "b"] : List String).length < 3 ∧
    (emptyMatrix.loadMatrix ["a", "b"] [0, 1, 1, 0]).1 = true ∧
    (emptyMatrix.loadMatrix ["a", "b"] [0, 1, 1, 0]).2.rowToCluster = [0, 1] ∧
    (emptyMatrix.loadMatrix ["a", "b"] [0, 1, 1, 0]).2.clusters ≠ emptyMatrix.clusters := by
  refine ⟨by decide, by decide, by decide, by decide⟩

/-- C2 (amended): `loadMatrix` performs no precondition validation at all:
for every input — however malformed — it reports success and has mutated
the state, allocating a `names.length`-sized matrix, the identity
row-to-cluster map, and one leaf cluster record per name. -/
theorem claim_c2_amended (m : UPGMA_Matrix) (names : List String) (flat : List ℚ) :
    (m.loadMatrix names flat).1 = true ∧
    (m.loadMatrix names flat).2.rowToCluster = List.range names.length ∧
    (m.loadMatrix names flat).2.rows.length = names.length ∧
    (m.loadMatrix names flat).2.clusters = names.map (fun nm => ⟨nm, [], 1⟩) := by
  refine ⟨rfl, rfl, ?_, ?_⟩
  · simp [UPGMA_Matrix.loadMatrix, UPGMA_Matrix.loadDistancesFromFlatArray,
      UPGMA_Matrix.setSize]
  · simp [UPGMA_Matrix.loadMatrix, UPGMA_Matrix.loadDistancesFromFlatArray,
      UPGMA_Matrix.setSize, foldl_addLeafCluster]

set_option maxRecDepth 4000 in
/-- C3: on a matrix whose rows have pairwise-distinct lower-triangle
entries (no exact ties), the scalar and the vectorized scanners disagree
on row 9: the scalar scanner finds the minimum 1 at column 3, while the
vectorized scanner reports column 0 for the same minimum, because
`scratchColumnNumbers` is only ever resized (zero-filled) and never
populated with column indices. -/
theorem claim_c3_scanner_divergence :
    (∀ r < 10, ((tenTaxa.rows.getD r []).take r).Pairwise (· ≠ ·)) ∧
    (UPGMA_Matrix.getRowMinima tenTaxa).getD 9 default = ⟨9, 3, 1, 0⟩ ∧
    (VectorizedUPGMA.getRowMinima tenTaxa).getD 9 default = ⟨9, 0, 1, 0⟩ := by
  refine ⟨by decide, by decide, by decide⟩

/-- C4: `finishClustering` declares its per-row weights array as
`std::vector<T> weights;` — size zero — and then assigns `weights[i]` for
each remaining row, so the very first access is out of bounds: the
bounds-checked embedding aborts (returns `none`) both when entered with 2
rows and when entered with 3. -/
theorem claim_c4_weights_out_of_bounds :
    UPGMA_Matrix.finishClustering twoRowsRemaining = none ∧
    UPGMA_Matrix.finishClustering threeRowsRemaining = none := by
  refine ⟨by decide, by decide⟩

/-- C6: `constructTree` never completes, so no completed call appends
N−1 (rooted) or N−2 (unrooted) internal records: on a 3-taxon input the
rooted run appends exactly one internal record in the joining loop and
then aborts inside `finishClustering` (out-of-bounds weights access), and
the unrooted run aborts having appended none. -/
theorem claim_c6_construct_tree_aborts :
    internalRecordCount
      (UPGMA_Matrix.joinLoop (UPGMA_Matrix.clusterDuplicates threeTaxaRooted)).clusters = 1 ∧
    internalRecordCount
      (UPGMA_Matrix.joinLoop (UPGMA_Matrix.clusterDuplicates threeTaxaUnrooted)).clusters = 0 ∧
    UPGMA_Matrix.constructTree threeTaxaRooted = none ∧
    UPGMA_Matrix.constructTree threeTaxaUnrooted = none := by
  refine ⟨by decide, by decide, by decide, by decide⟩

/-- C8 (counterexample): a rooted construction from exactly 3 entities
does not perform zero ordinary joins: the joining loop (threshold
`degree_of_root = 2 < row_count = 3`) performs one join, appending one
internal record before the finishing step. -/
theorem claim_c8_counterexample :
    threeTaxaRooted.isRooted = true ∧
    internalRecordCount threeTaxaRooted.clusters = 0 ∧
    internalRecordCount (UPGMA_Matrix.joinLoop threeTaxaRooted).clusters = 1 := by
  refine ⟨by decide, by decide, by decide⟩

/-- C8 (amended): for 3 distinct entities the duplicate pass does nothing;
if `isRooted` is false the joining loop performs zero iterations and
`constructTree` goes straight to the finishing step; if `isRooted` is true
the loop performs exactly one ordinary join (one internal record) and then
enters the finishing step with two rows.  (In both cases the finishing
step itself aborts on its out-of-bounds weights access instead of
producing the final internal record.) -/
theorem claim_c8_amended :
    UPGMA_Matrix.clusterDuplicates threeTaxaUnrooted = threeTaxaUnrooted ∧
    UPGMA_Matrix.joinLoop threeTaxaUnrooted = threeTaxaUnrooted ∧
    UPGMA_Matrix.constructTree threeTaxaUnrooted
      = UPGMA_Matrix.finishClustering threeTaxaUnrooted ∧
    UPGMA_Matrix.clusterDuplicates threeTaxaRooted = threeTaxaRooted ∧
    internalRecordCount (UPGMA_Matrix.joinLoop threeTaxaRooted).clusters = 1 ∧
    UPGMA_Matrix.constructTree threeTaxaRooted
      = UPGMA_Matrix.finishClustering (UPGMA_Matrix.joinLoop threeTaxaRooted) := by
  refine ⟨by decide, by decide, by decide, by decide, by decide, by decide⟩

/-- C7: on a live matrix whose dissimilarities do not exceed the
`infiniteDistance` sentinel, `getRowMinima` produces one entry per live
row; entry 0 is the infinite-value sentinel with `row = column` (hence
never selected by the `row != column` filter of the global reduction); and
for every row `1 ≤ r < row_count` the entry holds row `r`, a column
`c < r` at which `matrix[r][c]` attains the minimum over all columns below
`r`, that minimum as its value, and the imbalance of the chosen pair. -/
theorem claim_c7_row_minima (m : UPGMA_Matrix)
    (h0 : m.rows.length ≠ 0)
    (hrows : ∀ r ∈ m.rows, r.length = m.rows.length)
    (hvals : ∀ r ∈ m.rows, ∀ v ∈ r, v ≤ infiniteDistance) :
    m.getRowMinima.length = m.rows.length ∧
    m.getRowMinima.getD 0 default = ⟨0, 0, infiniteDistance, 0⟩ ∧
    (m.getRowMinima.getD 0 default).row = (m.getRowMinima.getD 0 default).column ∧
    ∀ r, 1 ≤ r → r < m.rows.length →
      (m.getRowMinima.getD r default).row = (r : ℤ) ∧
      ∃ c : ℕ, (m.getRowMinima.getD r default).column = (c : ℤ) ∧ c < r ∧
        (m.getRowMinima.getD r default).value = (m.rows.getD r []).getD c 0 ∧
        (∀ c2, c2 < r →
          (m.getRowMinima.getD r default).value ≤ (m.rows.getD r []).getD c2 0) ∧
        (m.getRowMinima.getD r default).imbalance = m.getImbalance r c := by
  refine ⟨getRowMinima_length m h0, getRowMinima_getD_zero m h0, ?_, ?_⟩
  · rw [getRowMinima_getD_zero m h0]
  · intro r hr1 hr2
    rw [getRowMinima_getD m r hr1 hr2]
    have hrd : m.rows.getD r [] ∈ m.rows := rows_getD_mem m r hr2
    have hrdlen : (m.rows.getD r []).length = m.rows.length := hrows _ hrd
    have hbound : ∀ j, j < r → (m.rows.getD r []).getD j 0 ≤ infiniteDistance := by
      intro j hj
      exact hvals _ hrd _ (getD_mem_of_lt _ j (by omega))
    refine ⟨rfl, (scanRowForMinimum (m.rows.getD r []) r).1, rfl,
      scanRow_column_lt _ r hr1, ?_, ?_, rfl⟩
    · show (scanRowForMinimum (m.rows.getD r []) r).2
        = (m.rows.getD r []).getD (scanRowForMinimum (m.rows.getD r []) r).1 0
      rcases scanRow_spec (m.rows.getD r []) r with ⟨h1, h2, h3⟩ | ⟨_, h2, _, _⟩
      · rw [h1, h2]
        exact le_antisymm (h3 0 (by omega)) (hbound 0 (by omega))
      · exact h2
    · intro c2 hc2
      show (scanRowForMinimum (m.rows.getD r []) r).2 ≤ (m.rows.getD r []).getD c2 0
      rcases scanRow_spec (m.rows.getD r []) r with ⟨_, h2, h3⟩ | ⟨_, _, _, h4⟩
      · rw [h2]
        exact h3 c2 hc2
      · exact h4 c2 hc2

/-- Witness for C7 on the concrete 3-taxon matrix. -/
theorem claim_c7_row_minima_witness :
    (threeTaxaUnrooted.rows.length ≠ 0 ∧
     (∀ r ∈ threeTaxaUnrooted.rows, r.length = threeTaxaUnrooted.rows.length) ∧
     (∀ r ∈ threeTaxaUnrooted.rows, ∀ v ∈ r, v ≤ infiniteDistance)) ∧
    (threeTaxaUnrooted.getRowMinima.length = threeTaxaUnrooted.rows.length ∧
     threeTaxaUnrooted.getRowMinima.getD 0 default = ⟨0, 0, infiniteDistance, 0⟩ ∧
     (threeTaxaUnrooted.getRowMinima.getD 0 default).row
       = (threeTaxaUnrooted.getRowMinima.getD 0 default).column ∧
     ∀ r, 1 ≤ r → r < threeTaxaUnrooted.rows.length →
       (threeTaxaUnrooted.getRowMinima.getD r default).row = (r : ℤ) ∧
       ∃ c : ℕ, (threeTaxaUnrooted.getRowMinima.getD r default).column = (c : ℤ) ∧ c < r ∧
         (threeTaxaUnrooted.getRowMinima.getD r default).value
           = (threeTaxaUnrooted.rows.getD r []).getD c 0 ∧
         (∀ c2, c2 < r →
           (threeTaxaUnrooted.getRowMinima.getD r default).value
             ≤ (threeTaxaUnrooted.rows.getD r []).getD c2 0) ∧
         (threeTaxaUnrooted.getRowMinima.getD r default).imbalance
           = threeTaxaUnrooted.getImbalance r c) :=
  ⟨⟨by decide, by decide, by decide⟩,
   claim_c7_row_minima threeTaxaUnrooted (by decide) (by decide) (by decide)⟩

/-- C10: every join is performed on a pair with the first argument strictly
below the second.  (a) In the main joining loop, on any matrix state of at
least two rows, full-length rows and dissimilarities strictly below
`infiniteDistance`, the `Position` selected by `getMinimumEntry` over
`getRowMinima` (for any carried-over `best`) satisfies `column < row` —
and `constructTree` passes `(best.column, best.row)` to `cluster`.
(b) In the duplicate-coalescing pass, the two rows of a pair are swapped
into ascending order before `cluster` is called, so distinct rows always
arrive as an ascending pair. -/
theorem claim_c10_column_lt_row :
    (∀ (m : UPGMA_Matrix) (best0 : Position),
      2 ≤ m.rows.length →
      (∀ r ∈ m.rows, r.length = m.rows.length) →
      (∀ r ∈ m.rows, ∀ v ∈ r, v < infiniteDistance) →
      (getMinimumEntry best0 m.getRowMinima).column
        < (getMinimumEntry best0 m.getRowMinima).row) ∧
    (∀ row_a row_b : ℤ, row_a ≠ row_b →
      (orderRows row_a row_b).1 < (orderRows row_a row_b).2) := by
  constructor
  · intro m best0 hlen hrows hvals
    have hrd : m.rows.getD 1 [] ∈ m.rows := rows_getD_mem m 1 (by omega)
    have hrdlen : (m.rows.getD 1 []).length = m.rows.length := hrows _ hrd
    have hv0 : (m.rows.getD 1 []).getD 0 0 < infiniteDistance :=
      hvals _ hrd _ (getD_mem_of_lt _ 0 (by omega))
    have hscan1 : scanRowForMinimum (m.rows.getD 1 []) 1
        = (0, (m.rows.getD 1 []).getD 0 0) := by
      have h1 : scanRowForMinimum (m.rows.getD 1 []) 1
          = scanStep (m.rows.getD 1 []) (0, infiniteDistance) 0 := rfl
      rw [h1]
      unfold scanStep
      rw [if_pos]
      exact hv0
    have hmem1 : rowMinEntry m 1 ∈ m.getRowMinima := by
      unfold UPGMA_Matrix.getRowMinima
      rw [if_neg (by omega)]
      refine List.mem_cons_of_mem _ (List.mem_map_of_mem _ ?_)
      exact List.mem_range'_1.mpr ⟨le_refl 1, by omega⟩
    have hval1 : (rowMinEntry m 1).value < infiniteDistance := by
      unfold rowMinEntry
      rw [hscan1]
      exact hv0
    have hns1 : (rowMinEntry m 1).row ≠ (rowMinEntry m 1).column := by
      unfold rowMinEntry
      rw [hscan1]
      simp
    rcases minEntryFold_cases m.getRowMinima { best0 with value := infiniteDistance }
      with h1 | ⟨i, hi, heq, hns, hlt, hfirst⟩
    · exfalso
      have h2 := (minEntryFold_le m.getRowMinima
        { best0 with value := infiniteDistance }).2 _ hmem1 hns1
      rw [h1] at h2
      exact absurd (lt_of_le_of_lt h2 hval1) (lt_irrefl _)
    · show (m.getRowMinima.foldl minEntryStep { best0 with value := infiniteDistance }).column
        < (m.getRowMinima.foldl minEntryStep { best0 with value := infiniteDistance }).row
      rw [heq]
      have hmem : m.getRowMinima.getD i default ∈ m.getRowMinima := by
        rw [List.getD_eq_getElem _ _ hi]
        exact List.getElem_mem hi
      rcases mem_getRowMinima m _ hmem with hsent | ⟨r, hr1, _, hre⟩
      · exfalso
        rw [hsent] at hns
        exact hns rfl
      · rw [hre]
        exact rowMinEntry_column_lt_row m r hr1
  · intro row_a row_b hne
    unfold orderRows
    split
    · next h => exact h
    · next h => omega

/-- Witness for C10 at the concrete 3-taxon state and a concrete row
pair. -/
theorem claim_c10_column_lt_row_witness :
    (2 ≤ threeTaxaUnrooted.rows.length ∧
     (∀ r ∈ threeTaxaUnrooted.rows, r.length = threeTaxaUnrooted.rows.length) ∧
     (∀ r ∈ threeTaxaUnrooted.rows, ∀ v ∈ r, v < infiniteDistance) ∧
     (getMinimumEntry ⟨0, 0, 0, 0⟩ threeTaxaUnrooted.getRowMinima).column
       < (getMinimumEntry ⟨0, 0, 0, 0⟩ threeTaxaUnrooted.getRowMinima).row) ∧
    ((7 : ℤ) ≠ (4 : ℤ) ∧ (orderRows 7 4).1 < (orderRows 7 4).2) :=
  ⟨⟨by decide, by decide, by decide,
    claim_c10_column_lt_row.1 threeTaxaUnrooted ⟨0, 0, 0, 0⟩
      (by decide) (by decide) (by decide)⟩,
   ⟨by decide, claim_c10_column_lt_row.2 7 4 (by decide)⟩⟩

/-- C5: for `cluster(a, b)` with `a < b < row_count` on a well-formed
matrix: a parent record is appended whose two children are
`(rowToCluster[a], matrix[b][a]/2)` and `(rowToCluster[b], matrix[b][a]/2)`
(both branch lengths equal `matrix[b][a]/2`); `rowToCluster[a]` becomes the
new parent's id (the old `clusters.size()`), and `rowToCluster[b]` is
overwritten with the entry previously at index `row_count-1`; for every
other live row `i` the value `lambda*D(a,i) + (1-lambda)*D(b,i)` with
`lambda = countA/(countA+countB)` is written to both `matrix[a][i]` and
`matrix[i][a]`; finally row/column `b` is removed by the swap-with-last
`removeRowAndColumn`, decrementing the row count. -/
theorem claim_c5_cluster_effects (m : UPGMA_Matrix) (a b : ℕ)
    (hab : a < b) (hb : b < m.rows.length)
    (hrows : ∀ r ∈ m.rows, r.length = m.rows.length) :
    (m.cluster a b).clusters
      = m.clusters ++
        [⟨"", [(m.rowToCluster.getD a 0, (m.rows.getD b []).getD a 0 / 2),
               (m.rowToCluster.getD b 0, (m.rows.getD b []).getD a 0 / 2)],
          (m.clusters.getD (m.rowToCluster.getD a 0) default).countOfExteriorNodes
            + (m.clusters.getD (m.rowToCluster.getD b 0) default).countOfExteriorNodes⟩] ∧
    (m.cluster a b).rowToCluster
      = (m.rowToCluster.set a m.clusters.length).set b
          (m.rowToCluster.getD (m.rows.length - 1) 0) ∧
    (∀ i, i < m.rows.length → i ≠ a → i ≠ b →
      ((m.clusterJoinedRows a b).getD a []).getD i 0
          = ((m.clusters.getD (m.rowToCluster.getD a 0) default).countOfExteriorNodes : ℚ)
              / (((m.clusters.getD (m.rowToCluster.getD a 0) default).countOfExteriorNodes : ℚ)
                  + ((m.clusters.getD (m.rowToCluster.getD b 0) default).countOfExteriorNodes : ℚ))
              * ((m.rows.getD a []).getD i 0)
            + (1 - ((m.clusters.getD (m.rowToCluster.getD a 0) default).countOfExteriorNodes : ℚ)
                  / (((m.clusters.getD (m.rowToCluster.getD a 0) default).countOfExteriorNodes : ℚ)
                      + ((m.clusters.getD (m.rowToCluster.getD b 0) default).countOfExteriorNodes : ℚ)))
              * ((m.rows.getD b []).getD i 0) ∧
      ((m.clusterJoinedRows a b).getD i []).getD a 0
          = ((m.clusterJoinedRows a b).getD a []).getD i 0) ∧
    (m.cluster a b).rows = removeRowAndColumn (m.clusterJoinedRows a b) b ∧
    (m.cluster a b).rows.length = m.rows.length - 1 := by
  have hrda_len : (m.rows.getD a []).length = m.rows.length :=
    hrows _ (rows_getD_mem m a (by omega))
  have hrowA : (m.clusterJoinedRows a b).getD a []
      = updateRowDistances (newDistanceFun m a b) a b 0 (m.rows.getD a []) := by
    unfold UPGMA_Matrix.clusterJoinedRows
    rw [writeNewDistances_getD_zero _ a b m.rows a (by omega), if_pos rfl]
  refine ⟨?_, ?_, ?_, rfl, ?_⟩
  · simp [UPGMA_Matrix.cluster, addJoinCluster, mul_one_div]
    ring
  · have hane : a ≠ m.rows.length - 1 := by omega
    have hc : (m.cluster a b).rowToCluster
        = (m.rowToCluster.set a (m.clusters.length + 1 - 1)).set b
            ((m.rowToCluster.set a (m.clusters.length + 1 - 1)).getD
              (m.rows.length - 1) 0) := by
      simp [UPGMA_Matrix.cluster, addJoinCluster]
    rw [hc]
    simp only [Nat.add_sub_cancel]
    rw [getD_set_ne _ a (m.rows.length - 1) _ _ hane]
  · intro i hi hia hib
    have hrdi_len : (m.rows.getD i []).length = m.rows.length :=
      hrows _ (rows_getD_mem m i hi)
    have hrowApart : ((m.clusterJoinedRows a b).getD a []).getD i 0
        = newDistanceFun m a b i := by
      rw [hrowA]
      have h2 := updateRowDistances_getD (newDistanceFun m a b) a b 0
        (m.rows.getD a []) i (by omega)
      simp only [Nat.zero_add] at h2
      rw [h2, if_pos ⟨hia, hib⟩]
    constructor
    · rw [hrowApart]
      exact newDistanceFun_spec m a b i
    · have h1 : (m.clusterJoinedRows a b).getD i []
          = (m.rows.getD i []).set a (newDistanceFun m a b i) := by
        unfold UPGMA_Matrix.clusterJoinedRows
        have h2 := writeNewDistances_getD_zero (newDistanceFun m a b) a b m.rows i hi
        rw [h2, if_neg hia, if_neg hib]
      rw [h1, getD_set_self _ a _ _ (by omega), hrowApart]
  · rw [show (m.cluster a b).rows = removeRowAndColumn (m.clusterJoinedRows a b) b from rfl,
      removeRowAndColumn_length, clusterJoinedRows_length]

/-- Witness for C5 at the concrete 3-taxon state with `a = 0`, `b = 1`. -/
theorem claim_c5_cluster_effects_witness :
    (0 < 1 ∧ 1 < threeTaxaUnrooted.rows.length ∧
     (∀ r ∈ threeTaxaUnrooted.rows, r.length = threeTaxaUnrooted.rows.length)) ∧
    ((threeTaxaUnrooted.cluster 0 1).clusters
      = threeTaxaUnrooted.clusters ++
        [⟨"", [(threeTaxaUnrooted.rowToCluster.getD 0 0,
                (threeTaxaUnrooted.rows.getD 1 []).getD 0 0 / 2),
               (threeTaxaUnrooted.rowToCluster.getD 1 0,
                (threeTaxaUnrooted.rows.getD 1 []).getD 0 0 / 2)],
          (threeTaxaUnrooted.clusters.getD (threeTaxaUnrooted.rowToCluster.getD 0 0)
            default).countOfExteriorNodes
            + (threeTaxaUnrooted.clusters.getD (threeTaxaUnrooted.rowToCluster.getD 1 0)
                default).countOfExteriorNodes⟩] ∧
    (threeTaxaUnrooted.cluster 0 1).rowToCluster
      = (threeTaxaUnrooted.rowToCluster.set 0 threeTaxaUnrooted.clusters.length).set 1
          (threeTaxaUnrooted.rowToCluster.getD (threeTaxaUnrooted.rows.length - 1) 0) ∧
    (∀ i, i < threeTaxaUnrooted.rows.length → i ≠ 0 → i ≠ 1 →
      ((threeTaxaUnrooted.clusterJoinedRows 0 1).getD 0 []).getD i 0
          = ((threeTaxaUnrooted.clusters.getD (threeTaxaUnrooted.rowToCluster.getD 0 0)
                default).countOfExteriorNodes : ℚ)
              / (((threeTaxaUnrooted.clusters.getD (threeTaxaUnrooted.rowToCluster.getD 0 0)
                    default).countOfExteriorNodes : ℚ)
                  + ((threeTaxaUnrooted.clusters.getD (threeTaxaUnrooted.rowToCluster.getD 1 0)
                      default).countOfExteriorNodes : ℚ))
              * ((threeTaxaUnrooted.rows.getD 0 []).getD i 0)
            + (1 - ((threeTaxaUnrooted.clusters.getD (threeTaxaUnrooted.rowToCluster.getD 0 0)
                    default).countOfExteriorNodes : ℚ)
                  / (((threeTaxaUnrooted.clusters.getD (threeTaxaUnrooted.rowToCluster.getD 0 0)
                        default).countOfExteriorNodes : ℚ)
                      + ((threeTaxaUnrooted.clusters.getD
                          (threeTaxaUnrooted.rowToCluster.getD 1 0)
                          default).countOfExteriorNodes : ℚ)))
              * ((threeTaxaUnrooted.rows.getD 1 []).getD i 0) ∧
      ((threeTaxaUnrooted.clusterJoinedRows 0 1).getD i []).getD 0 0
          = ((threeTaxaUnrooted.clusterJoinedRows 0 1).getD 0 []).getD i 0) ∧
    (threeTaxaUnrooted.cluster 0 1).rows
      = removeRowAndColumn (threeTaxaUnrooted.clusterJoinedRows 0 1) 1 ∧
    (threeTaxaUnrooted.cluster 0 1).rows.length = threeTaxaUnrooted.rows.length - 1) :=
  ⟨⟨by decide, by decide, by decide⟩,
   claim_c5_cluster_effects threeTaxaUnrooted 0 1 (by decide) (by decide) (by decide)⟩

/-- C9: every halving round of `joinUpDuplicateClusters` on a duplicate-set
of size `k > 1` (with enough rows for the round to finish) splits it into a
first half of `⌊k/2⌋` and a second half of `⌈k/2⌉` elements, pairs element
`t` of the first half with element `t + ⌈k/2⌉`, joins each such pair via
the Join operation, stores the fresh joined-cluster id in slot `t`, shrinks
the set to `⌈k/2⌉` elements, and repeats; the loop stops as soon as the set
has size ≤ 1 or `row_count` is no longer greater than 3. -/
theorem claim_c9_halve_and_pair :
    (∀ s : DupState, 1 < s.vc.length →
      3 + s.vc.length / 2 ≤ s.m.rows.length → dupRoundSpec s) ∧
    (∀ (fuel : ℕ) (s2 : DupState), s2.vc.length ≤ 1 ∨ s2.m.rows.length ≤ 3 →
      dupWhileLoop fuel s2 = s2) := by
  constructor
  · intro s h1 h2
    obtain ⟨L1, L2, L3, L4, L5⟩ :=
      dupInnerLoop_spec (s.vc.length - s.vc.length / 2) (s.vc.length / 2) s.vc
        s.m.clusters.length s.m.rows.length (s.vc.length / 2) 0 s
        (by omega) (by omega) (by omega) rfl rfl (by omega) (by omega)
    simp only [dupRoundSpec]
    refine ⟨by omega, ?_, ?_, ?_, L4, L5, ?_⟩
    · refine ext_by_getD _ _ 0 ?_ ?_
      · rw [List.length_take, L1]
        simp only [List.length_append, List.length_map, List.length_range,
          List.length_take, List.length_drop]
        omega
      · intro j hj
        rw [List.length_take, L1] at hj
        have hjsh : j < s.vc.length - s.vc.length / 2 := by omega
        rw [getD_take_of_lt _ _ _ _ hjsh, L2 j]
        by_cases hjf : j < s.vc.length / 2
        · rw [if_pos ⟨Nat.zero_le j, hjf⟩]
          rw [List.getD_append _ _ _ _ (by simpa using hjf)]
          rw [List.getD_eq_getElem _ _ (by simpa using hjf)]
          simp
        · rw [if_neg (by omega)]
          have hmap : ((List.range (s.vc.length / 2)).map
              (fun t => s.m.clusters.length + t)).length = s.vc.length / 2 := by
            simp
          rw [List.getD_append_right _ _ _ _ (by omega : _ ≤ j)]
          rw [hmap]
          rw [getD_take_of_lt _ _ _ _ (by omega : j - s.vc.length / 2
            < s.vc.length - s.vc.length / 2 - s.vc.length / 2)]
          rw [getD_drop_add]
          congr 1
          omega
    · rw [List.length_take, L1]
      omega
    · rw [List.range_eq_range']
      exact L3
    · intro fuel
      have hw : dupWhileLoop (fuel + 1) s
          = if 1 < s.vc.length ∧ 3 < s.m.rows.length then
              dupWhileLoop fuel
                { dupInnerLoop (s.vc.length - s.vc.length / 2) (s.vc.length / 2)
                    (s.vc.length / 2) 0 s with
                  vc := (dupInnerLoop (s.vc.length - s.vc.length / 2) (s.vc.length / 2)
                      (s.vc.length / 2) 0 s).vc.take (s.vc.length - s.vc.length / 2) }
            else s := rfl
      rw [hw, if_pos ⟨h1, by omega⟩]
  · intro fuel s2 h
    cases fuel with
    | zero => rfl
    | succ f =>
      have hw : dupWhileLoop (f + 1) s2
          = if 1 < s2.vc.length ∧ 3 < s2.m.rows.length then
              dupWhileLoop f
                { dupInnerLoop (s2.vc.length - s2.vc.length / 2) (s2.vc.length / 2)
                    (s2.vc.length / 2) 0 s2 with
                  vc := (dupInnerLoop (s2.vc.length - s2.vc.length / 2) (s2.vc.length / 2)
                      (s2.vc.length / 2) 0 s2).vc.take (s2.vc.length - s2.vc.length / 2) }
            else s2 := rfl
      rw [hw, if_neg (by omega)]

/-- Witness for C9: one halve-and-pair round on a concrete two-element
duplicate-set over the 4-taxon state, and the stop condition on a
one-element set. -/
theorem claim_c9_halve_and_pair_witness :
    (1 < fourTaxaDupState.vc.length ∧
     3 + fourTaxaDupState.vc.length / 2 ≤ fourTaxaDupState.m.rows.length ∧
     dupRoundSpec fourTaxaDupState) ∧
    ((⟨fourTaxa, [0, 1, 2, 3], [4], []⟩ : DupState).vc.length ≤ 1 ∧
     dupWhileLoop 5 ⟨fourTaxa, [0, 1, 2, 3], [4], []⟩
       = ⟨fourTaxa, [0, 1, 2, 3], [4], []⟩) :=
  ⟨⟨by decide, by decide,
    claim_c9_halve_and_pair.1 fourTaxaDupState (by decide) (by decide)⟩,
   ⟨by decide, claim_c9_halve_and_pair.2 5 ⟨fourTaxa, [0, 1, 2, 3], [4], []⟩
      (Or.inl (by decide))⟩⟩

end StartTree


